import Mathlib

/-!
Shallow embedding of the SGA (simple GEO analyzer) core pipeline:
`modules/correlation_calculater.py`, `modules/utils/parse_interpreter.py`
and `modules/data_loader.py`, together with theorems settling the spec
claims about gene-vector resolution, statistical comparison, the
index-expression parser, the analysis engine and the download cache.
Machine floats are modelled by exact rationals and `NaN` by `Option`.
-/

namespace SGA

/-- Test whether the first character list occurs at the head of the second. -/
def charsStartWith : List Char → List Char → Bool
  | [], _ => true
  | _ :: _, [] => false
  | a :: as, b :: bs => a == b && charsStartWith as bs

/-- Test whether the first character list occurs contiguously inside the
second. -/
def charsContain (n : List Char) : List Char → Bool
  | [] => n.isEmpty
  | c :: cs => charsStartWith n (c :: cs) || charsContain n cs

/-- Python's substring test `needle in haystack` on strings. -/
def pyIn (needle haystack : String) : Bool :=
  charsContain needle.data haystack.data

/-- Python's `str.upper()`: uppercase every character. -/
def strUpper (s : String) : String := ⟨s.data.map Char.toUpper⟩

/-- Python's `str.split(sep)` for a one-character separator, on character
lists: empty input gives one empty field, and adjacent separators give empty
fields. -/
def splitChars (sep : Char) : List Char → List (List Char)
  | [] => [[]]
  | c :: cs =>
    let r := splitChars sep cs
    if c == sep then [] :: r
    else
      match r with
      | [] => [[c]]
      | g :: gs => (c :: g) :: gs

/-- Python's `str.split(sep)` for a one-character separator, on strings. -/
def splitOnChar (sep : Char) (s : String) : List String :=
  (splitChars sep s.data).map fun l => ⟨l⟩

/-- Whitespace recognised by Python's `str.strip()` (ASCII cases). -/
def isSpaceChar (c : Char) : Bool :=
  c == ' ' || c == '\t' || c == '\n' || c == '\r'

/-- Python's `str.strip()`: drop leading and trailing whitespace. -/
def strTrim (s : String) : String :=
  ⟨((s.data.dropWhile isSpaceChar).reverse.dropWhile isSpaceChar).reverse⟩

/-- Python's `int(s)` on a string of decimal digits. -/
def digitsToNat (l : List Char) : Nat :=
  l.foldl (fun acc c => acc * 10 + (c.toNat - 48)) 0

/-- A pandas `Series` indexed by sample identifier; a `none` value models a
missing entry (`NaN`). -/
abbrev Series := List (String × Option ℚ)

/-- Value stored by a series at key `k` (first occurrence); `none` when the
key is absent from the index. -/
def seriesLookup (s : Series) (k : String) : Option (Option ℚ) :=
  (s.find? fun p => p.1 == k).map Prod.snd

/-- Embedding of lines 104-109 of `correlation_calculater.py`:
`vec1.align(vec2, join='inner')` keeps the samples present in both indexes,
and the `notna` mask then drops any sample where either value is missing.
The surviving value pairs are listed in the order of `v1`. -/
def alignCleaned (v1 v2 : Series) : List (ℚ × ℚ) :=
  v1.filterMap fun p =>
    match p.2, seriesLookup v2 p.1 with
    | some a, some (some b) => some (a, b)
    | _, _ => none

/-- Embedding of the test `v.std() == 0` on line 112 of
`correlation_calculater.py`: with the pandas default `ddof = 1` the sample
standard deviation of a list of at least two entries is zero precisely when
all entries coincide, and on shorter lists pandas yields `NaN`, which
compares unequal to `0`. -/
def stdZero : List ℚ → Bool
  | [] => false
  | [_] => false
  | a :: b :: l => (b :: l).all fun x => x == a

/-- Embedding of `Analyzer.scipy_analyze` (`correlation_calculater.py`
lines 92-116). The library call `scipy.stats.pearsonr` is external to the
repository, so it is passed in as the parameter `pearson`; the function
returns `none` for the Python `(None, None)`. -/
def scipy_analyze (pearson : List ℚ → List ℚ → ℚ × ℚ) (v1 v2 : Series) :
    Option (ℚ × ℚ) :=
  let pairs := alignCleaned v1 v2
  let x := pairs.map Prod.fst
  let y := pairs.map Prod.snd
  if pairs.length < 3 then none
  else if stdZero x || stdZero y then none
  else some (pearson x y)

/-- Arithmetic mean of a list of rationals. -/
def listMean (l : List ℚ) : ℚ := l.sum / l.length

/-- Sample variance with the `n - 1` denominator pandas uses (`ddof = 1`).
The spec's "standard deviation is zero" is equivalent to zero variance. -/
def sampleVar (l : List ℚ) : ℚ :=
  (l.map fun a => (a - listMean l) ^ 2).sum / ((l.length : ℚ) - 1)

/-- Stand-in for the external `scipy.stats.pearsonr` in concrete evaluations. -/
def pearsonStub : List ℚ → List ℚ → ℚ × ℚ := fun _ _ => (0, 0)

/-- Concrete three-sample vector used to instantiate statements. -/
def sampleVec1 : Series := [("s1", some 1), ("s2", some 2), ("s3", some 3)]

/-- Concrete three-sample vector with the same index as `sampleVec1`. -/
def sampleVec2 : Series := [("s1", some 1), ("s2", some 2), ("s3", some 5)]

/-- One cell of a pandas column: `cellStr` is the string the cell renders to
under `astype(str)`, and `val` is its numeric value (`none` models `NaN`;
string-dtype cells carry `none`). -/
structure Cell where
  cellStr : String
  val : Option ℚ
deriving DecidableEq

/-- One column of a pandas `DataFrame`: its label, whether its dtype is
numeric (kept by `select_dtypes(include=['number'])`), and its cells in row
order. -/
structure Column where
  name : String
  isNumeric : Bool
  cells : List Cell
deriving DecidableEq

/-- A pandas `DataFrame`: a row index of labels and a list of columns; cell
lists run parallel to the index. -/
structure DataFrame where
  index : List String
  cols : List Column
deriving DecidableEq

/-- Row positions whose index label matches the uppercased gene name,
embedding `df.index[index_upper == target_gene_upper]`
(`correlation_calculater.py` lines 33-36). -/
def idxMatches (d : DataFrame) (gU : String) : List Nat :=
  (d.index.enum.filter fun p => strUpper p.2 == gU).map Prod.fst

/-- Row positions whose index label equals `lbl` exactly, in row order. -/
def labelMatches (d : DataFrame) (lbl : String) : List Nat :=
  (d.index.enum.filter fun p => p.2 == lbl).map Prod.fst

/-- Embedding of the pandas label-based selection `df.loc[df.index[mask]]`
on a possibly non-unique index (`correlation_calculater.py` line 36): the
key lists the labels at the case-insensitively matched positions, in order,
and `loc` expands each key element to every row carrying that exact label —
so a label duplicated among the matches selects its rows once per duplicate,
and the later mean is weighted by exact-label multiplicity. -/
def locPositions (d : DataFrame) (gU : String) : List Nat :=
  (idxMatches d gU).flatMap fun p => labelMatches d (d.index.getD p "")

/-- Column filter on line 40 of `correlation_calculater.py`: the column name
uppercased contains `SYMBOL` or `GENE` as a substring. -/
def isPotentialCol (c : Column) : Bool :=
  pyIn "SYMBOL" (strUpper c.name) || pyIn "GENE" (strUpper c.name)

/-- Row positions whose stringified, uppercased cell in column `c` matches
the uppercased gene name (`correlation_calculater.py` lines 42-45). -/
def colMatches (c : Column) (gU : String) : List Nat :=
  (c.cells.enum.filter fun p => strUpper p.2.cellStr == gU).map Prod.fst

/-- Scan of the potential columns (`correlation_calculater.py` lines 40-46):
the first `SYMBOL`/`GENE`-named column containing a match supplies the
selected row positions. -/
def findColSel : List Column → String → Option (List Nat)
  | [], _ => none
  | c :: cs, gU =>
    if isPotentialCol c && !(colMatches c gU).isEmpty then some (colMatches c gU)
    else findColSel cs gU

/-- Numeric-dtype columns, as kept by `select_dtypes(include=['number'])`
(`correlation_calculater.py` line 51). -/
def numericCols (d : DataFrame) : List Column :=
  d.cols.filter fun c => c.isNumeric

/-- Mean of a column over the selected row positions with the pandas default
`skipna=True` (`DataFrame.mean(axis=0)`, `correlation_calculater.py`
line 58): missing values are dropped, and an all-missing selection yields
`NaN`. -/
def meanAt (c : Column) (pos : List Nat) : Option ℚ :=
  let vals := pos.filterMap fun i => (c.cells.getD i ⟨"", none⟩).val
  if vals.isEmpty then none else some (vals.sum / vals.length)

/-- Core of `fetch_gene_vector` for an actual `DataFrame` argument, on the
already-uppercased gene name (`correlation_calculater.py` lines 29-63):
index match first (via the `loc` expansion of the matched labels, see
`locPositions`), then the `SYMBOL`/`GENE` column scan (a boolean mask, which
selects each row once), then restriction to numeric columns and the
per-sample mean over the selected rows. The result is the empty series when
nothing matched or no numeric data remained. -/
def fetchCore (d : DataFrame) (gU : String) : Series :=
  let sel :=
    if (idxMatches d gU).isEmpty then findColSel d.cols gU
    else some (locPositions d gU)
  match sel with
  | none => []
  | some pos =>
    if (numericCols d).isEmpty then []
    else (numericCols d).map fun c => (c.name, meanAt c pos)

/-- A value stored in a bundle: a raw expression matrix, the nested
`{"matrix_aligned": ..., "meta_aligned": ...}` dictionary produced by strict
alignment mode (`data_loader.py` lines 310-319), or any other non-DataFrame
Python object. -/
inductive BVal
  | df (d : DataFrame)
  | alignedDict (ma : DataFrame) (mt : DataFrame)
  | other
deriving DecidableEq

/-- Test whether a bundle value is an actual `DataFrame`. -/
def BVal.isDF : BVal → Bool
  | .df _ => true
  | _ => false

/-- Embedding of `fetch_gene_vector` (`correlation_calculater.py` lines
13-63). A non-DataFrame argument is logged and converted to the empty
series (lines 25-27); totality of this Lean function models that the Python
function never raises. -/
def fetch_gene_vector (v : BVal) (tarGene : String) : Series :=
  match v with
  | .df d => fetchCore d (strUpper tarGene)
  | _ => []

/-- Concrete numeric sample column `s1` of `sampleDF`. -/
def numCol1 : Column :=
  ⟨"s1", true, [⟨"1.0", some 1⟩, ⟨"3.0", some 3⟩, ⟨"5.0", some 5⟩]⟩

/-- Concrete numeric sample column `s2` of `sampleDF`. -/
def numCol2 : Column :=
  ⟨"s2", true, [⟨"2.0", some 2⟩, ⟨"4.0", some 4⟩, ⟨"7.0", some 7⟩]⟩

/-- Concrete matrix with a duplicate (case-varying) `ACTA2` index entry, an
annotation column and two numeric sample columns. -/
def sampleDF : DataFrame :=
  { index := ["ACTA2", "acta2", "VIM"]
    cols := [⟨"SYMBOL", false, [⟨"Acta2", none⟩, ⟨"ACTA2", none⟩, ⟨"Vim", none⟩]⟩,
             numCol1, numCol2] }

/-- Concrete numeric column with values `0, 0, 3`, for the duplicate-label
selection. -/
def dupCol : Column :=
  ⟨"s1", true, [⟨"0.0", some 0⟩, ⟨"0.0", some 0⟩, ⟨"3.0", some 3⟩]⟩

/-- Concrete matrix mixing exactly-duplicated and case-variant matching
labels: `loc` expands its key `["ACTA2", "ACTA2", "acta2"]` to the row
positions `[0, 1, 0, 1, 2]`. -/
def dupDF : DataFrame :=
  { index := ["ACTA2", "ACTA2", "acta2"], cols := [dupCol] }

/-- Concrete numeric column with values `1, 3, 5`, for the uniform-label
selection. -/
def uniCol : Column :=
  ⟨"u1", true, [⟨"1.0", some 1⟩, ⟨"3.0", some 3⟩, ⟨"5.0", some 5⟩]⟩

/-- Concrete matrix whose matching rows all carry the same exact label
`ACTA2`. -/
def uniDF : DataFrame :=
  { index := ["ACTA2", "ACTA2", "VIM"], cols := [uniCol] }

/-- One row of the analysis result table assembled by `Analyzer._calculater`
(`correlation_calculater.py` lines 181-187). -/
structure CorrRecord where
  matrix : String
  category : String
  gene : String
  R : ℚ
  P_value : ℚ
deriving DecidableEq

/-- Ordered insertion of a record into a list kept ascending by `R`. -/
def insertByR (a : CorrRecord) : List CorrRecord → List CorrRecord
  | [] => [a]
  | b :: bs => if a.R ≤ b.R then a :: b :: bs else b :: insertByR a bs

/-- Sort of the result table ascending by `R`, embedding
`sort_values('R')`. -/
def sortByR (l : List CorrRecord) : List CorrRecord := l.foldr insertByR []

/-- Embedding of the `Analyzer.significant` property
(`correlation_calculater.py` lines 128-132): the result table filtered to
`P_value < 0.05` and sorted ascending by `R`. Both pandas steps build new
frames, which the purity of this function models: the argument table is
never changed. -/
def significant (t : List CorrRecord) : List CorrRecord :=
  sortByR (t.filter fun rec => rec.P_value < 0.05)

/-- Outcome of one pass of the `parse_interpreter` input loop. -/
inductive ParseOutcome
  | hit (s : String)
  | invalid
  | crash
  | ok (l : List Nat)
deriving DecidableEq

/-- Outcome of reading one comma-separated token (`parse_interpreter.py`
lines 39-54): `bad` sets `error_catcher`, `boom` models an uncaught Python
exception (`int` applied to an empty token, or unpacking a range with more
than one colon), and `vals` contributes parsed indices. -/
inductive TokenRes
  | bad
  | boom
  | vals (l : List Nat)
deriving DecidableEq

/-- Parse of one token: either a plain non-negative integer or an inclusive
range `a:b` expanded by `range(pre, post + 1)`. -/
def tokenRes (t0 : String) : TokenRes :=
  let t := strTrim t0
  if pyIn ":" t then
    let parts := splitOnChar ':' t
    if parts.all fun p => !p.data.isEmpty && p.data.all Char.isDigit then
      match parts with
      | [a, b] =>
        let pre := digitsToNat a.data
        let post := digitsToNat b.data
        .vals (List.range' pre (post + 1 - pre))
      | _ => .boom
    else .bad
  else
    if t.data.all Char.isDigit then
      if t.data.isEmpty then .boom else .vals [digitsToNat t.data]
    else .bad

/-- Sequential token processing of the loop on lines 39-54 of
`parse_interpreter.py`: the first failing token aborts. -/
def collectTokens : List String → TokenRes
  | [] => .vals []
  | t :: ts =>
    match tokenRes t with
    | .bad => .bad
    | .boom => .boom
    | .vals l =>
      match collectTokens ts with
      | .bad => .bad
      | .boom => .boom
      | .vals ls => .vals (l ++ ls)

/-- Ascending duplicate-free insertion, building `sorted(list(set(...)))`. -/
def insertDedup (n : Nat) : List Nat → List Nat
  | [] => [n]
  | m :: ms =>
    if n < m then n :: m :: ms
    else if n == m then m :: ms
    else m :: insertDedup n ms

/-- Python's `sorted(list(set(l)))` on naturals. -/
def dedupSort (l : List Nat) : List Nat := l.foldr insertDedup []

/-- Truthiness-guarded whitelist check on lines 29-31 of
`parse_interpreter.py`: `parse.strip() in whitelist` when a non-empty
whitelist was supplied. -/
def wlHit : Option String → String → Bool
  | none, _ => false
  | some w, s => !(w == "") && pyIn (strTrim s) w

/-- Embedding of one pass of the `parse_interpreter` validation loop
(`parse_interpreter.py` lines 22-82) on a candidate input string. `invalid`
covers the re-prompt paths (empty input, a non-numeric token, an
out-of-range index); the interactive confirm step either returns the value
modelled here or re-runs the loop. -/
def parse_interpreter (input : String) (max_length : Nat)
    (whitelist : Option String) : ParseOutcome :=
  if input == "" then .invalid
  else if wlHit whitelist input then .hit input
  else
    match collectTokens ((splitOnChar ',' input).map strTrim) with
    | .bad => .invalid
    | .boom => .crash
    | .vals l =>
      let sorted := dedupSort l
      if max_length != 0 && sorted.any (fun n => max_length + 1 < n) then .invalid
      else .ok sorted

/-- The fixed marker taxonomy `Analyzer.hfm_dict`
(`correlation_calculater.py` lines 73-79). -/
def hfm_dict : List (String × List String) :=
  [("Classic", ["Acta2", "Vim", "Col1a1", "Col3a1"]),
   ("Inflammation", ["Il6", "Tnfa", "Il4", "Il1b"]),
   ("Signaling_Advanced", ["Tem1", "Arrb1", "Gas6", "Axl", "Pdgfb"]),
   ("Apoptosis", ["Fas", "Fasl", "Bcl2", "Trp53"]),
   ("Hedgehog", ["Ptch1", "Smo"])]

/-- Records produced for one non-meta bundle entry by the inner loops of
`Analyzer._calculater` (`correlation_calculater.py` lines 164-187): a record
is appended only when the marker vector is non-empty and `scipy_analyze`
produced a numeric coefficient. -/
def entryRecords (pearson : List ℚ → List ℚ → ℚ × ℚ) (tarGene name : String)
    (v : BVal) : List CorrRecord :=
  let target := fetch_gene_vector v tarGene
  hfm_dict.flatMap fun cg =>
    cg.2.filterMap fun gene =>
      let marker := fetch_gene_vector v gene
      if marker.isEmpty then none
      else
        match scipy_analyze pearson target marker with
        | none => none
        | some rp => some ⟨name, cg.1, gene, rp.1, rp.2⟩

/-- All records of a run of `Analyzer._calculater` over a bundle, skipping
the reserved `"meta"` entry (`correlation_calculater.py` lines 157-187). -/
def calcRecords (pearson : List ℚ → List ℚ → ℚ × ℚ) (tarGene : String)
    (bundle : List (String × BVal)) : List CorrRecord :=
  bundle.flatMap fun nv =>
    if nv.1 == "meta" then [] else entryRecords pearson tarGene nv.1 nv.2

/-- Embedding of `Analyzer._calculater` (`correlation_calculater.py` lines
144-196): `None` is returned when the record list stayed empty. -/
def calculater (pearson : List ℚ → List ℚ → ℚ × ℚ) (tarGene : String)
    (bundle : List (String × BVal)) : Option (List CorrRecord) :=
  if (calcRecords pearson tarGene bundle).isEmpty then none
  else some (calcRecords pearson tarGene bundle)

/-- Python exceptions that can escape the analysis entry points. -/
inductive PyErr
  | fileNotFoundError (msg : String)
  | typeError (msg : String)
  | attributeError (msg : String)
  | runtimeError (msg : String)
deriving DecidableEq

/-- Embedding of `DataAnalyzer.data_analyzer` (`correlation_calculater.py`
lines 251-274); the storage side effects do not affect the returned value.
An empty or `None` result reaches the bare `raise` on line 274, which Python
converts to `RuntimeError` since no exception is active. -/
def data_analyzer (pearson : List ℚ → List ℚ → ℚ × ℚ) (tarGene : String)
    (bundle : List (String × BVal)) : Except PyErr (List CorrRecord) :=
  match calculater pearson tarGene bundle with
  | some res => .ok res
  | none => .error (.runtimeError "No active exception to re-raise")

/-- Content of the bundle pickle file: the stored dict, or a pickled value
of some other type. -/
inductive PklVal
  | dictVal (b : List (String × BVal))
  | nonDict
deriving DecidableEq

/-- Embedding of `FileAnalyzer.read_pkl` (`correlation_calculater.py` lines
284-315) on the cache content (`none` = the pickle file does not exist). A
missing file raises `FileNotFoundError`, which the function itself catches
and only logs (lines 310-311), so the call falls through and returns
Python's implicit `None`; a non-dict pickle raises `TypeError`, which is
re-raised (lines 307-309); an empty dict raises `ValueError`, which is
caught and logged (lines 312-313). -/
def read_pkl (cache : Option PklVal) :
    Except PyErr (Option (List (String × BVal))) :=
  match cache with
  | none => .ok none
  | some .nonDict => .error (.typeError "the unpickled result is not a dict")
  | some (.dictVal b) => if b.isEmpty then .ok none else .ok (some b)

/-- Embedding of `FileAnalyzer.data_analyzer` (`correlation_calculater.py`
lines 322-345) composed with `FileAnalyzer._load_data`: when `read_pkl`
returned `None`, the `None` bundle reaches `Analyzer._calculater`, whose
`bundle.items()` call raises `AttributeError` on `NoneType`. -/
def file_data_analyzer (pearson : List ℚ → List ℚ → ℚ × ℚ) (tarGene : String)
    (cache : Option PklVal) : Except PyErr (List CorrRecord) :=
  match read_pkl cache with
  | .error e => .error e
  | .ok none => .error (.attributeError "nonetype object has no attribute items")
  | .ok (some b) =>
    match calculater pearson tarGene b with
    | some res => .ok res
    | none => .error (.runtimeError "No active exception to re-raise")

/-- Local file system plus a log of performed network requests, the state
`DataLoader.download_geo_data` acts on. -/
structure FileSys where
  files : List (String × String)
  requests : List String
deriving DecidableEq

/-- Python's `os.path.basename` for forward-slash paths. -/
def basename (p : String) : String := (splitOnChar '/' p).getLastD p

/-- Python's `os.path.join` for two components. -/
def pathJoin (a b : String) : String := a ++ "/" ++ b

/-- Content of a local file, `none` when no file exists at the path. -/
def fsLookup (files : List (String × String)) (p : String) : Option String :=
  (files.find? fun e => e.1 == p).map Prod.snd

/-- Embedding of `DataLoader.download_geo_data` (`data_loader.py` lines
84-125) over an explicit state: if the local file already exists the path is
returned with the state untouched; otherwise a legacy `ftp://` scheme is
rewritten to `https://`, one network request is recorded, and on success the
streamed content becomes the new local file while on failure the partial
file is removed and `None` is returned. -/
def download_geo_data (dataDir : String) (net : String → Option String)
    (url : String) (s : FileSys) : Option String × FileSys :=
  let local_path := pathJoin dataDir (basename url)
  if (fsLookup s.files local_path).isSome then (some local_path, s)
  else
    let url2 :=
      if charsStartWith "ftp://".data url.data then "https://" ++ ⟨url.data.drop 6⟩
      else url
    let s1 : FileSys := ⟨s.files, s.requests ++ [url2]⟩
    match net url2 with
    | some content => (some local_path, ⟨s1.files ++ [(local_path, content)], s1.requests⟩)
    | none => (none, s1)

/-- Network stub that fails every request, for concrete instantiations. -/
def netStub : String → Option String := fun _ => none

/-- Concrete bundle whose only non-meta entry is a strict-mode aligned
pair. -/
def strictBundle : List (String × BVal) :=
  [("meta", .df sampleDF), ("mat.txt", .alignedDict sampleDF sampleDF)]

end SGA

namespace SGA

theorem list_sum_eq_zero_of_nonneg {l : List ℚ} (h : ∀ x ∈ l, 0 ≤ x) :
    l.sum = 0 ↔ ∀ x ∈ l, x = 0 := by
  induction l with
  | nil => simp
  | cons a t ih =>
    have ha : 0 ≤ a := h a (List.mem_cons_self a t)
    have ht : ∀ x ∈ t, 0 ≤ x := fun x hx => h x (List.mem_cons_of_mem a hx)
    have hts : 0 ≤ t.sum := List.sum_nonneg ht
    constructor
    · intro hsum
      have hsum' : a + t.sum = 0 := by simpa using hsum
      have ha0 : a = 0 := le_antisymm (by linarith) ha
      have ht0 : t.sum = 0 := by linarith
      intro x hx
      rcases List.mem_cons.mp hx with rfl | hx'
      · exact ha0
      · exact (ih ht).mp ht0 x hx'
    · intro hall
      have : t.sum = 0 := (ih ht).mpr fun x hx => hall x (List.mem_cons_of_mem a hx)
      simp [hall a (List.mem_cons_self a t), this]

theorem listMean_of_const {l : List ℚ} {a : ℚ} (hne : l ≠ [])
    (h : ∀ x ∈ l, x = a) : listMean l = a := by
  have hsum : l.sum = l.length * a := by
    induction l with
    | nil => simp
    | cons b t ih =>
      have hb : b = a := h b (List.mem_cons_self b t)
      by_cases ht : t = []
      · simp [ht, hb]
      · have := ih ht fun x hx => h x (List.mem_cons_of_mem b hx)
        simp [this, hb]
        ring
  have hlen : (l.length : ℚ) ≠ 0 := by
    have : l.length ≠ 0 := by simpa [List.length_eq_zero] using hne
    exact_mod_cast this
  rw [listMean, hsum, mul_comm, mul_div_assoc, div_self hlen, mul_one]

theorem sampleVar_eq_zero_iff {l : List ℚ} (h2 : 2 ≤ l.length) :
    sampleVar l = 0 ↔ ∀ x ∈ l, x = listMean l := by
  have hden : ((l.length : ℚ) - 1) ≠ 0 := by
    have : (2 : ℚ) ≤ (l.length : ℚ) := by exact_mod_cast h2
    linarith
  have hnn : ∀ y ∈ l.map fun a => (a - listMean l) ^ 2, 0 ≤ y := by
    intro y hy
    rcases List.mem_map.mp hy with ⟨a, _, rfl⟩
    positivity
  constructor
  · intro hv
    have hsum : (l.map fun a => (a - listMean l) ^ 2).sum = 0 := by
      have := hv
      rw [sampleVar, div_eq_zero_iff] at this
      rcases this with h | h
      · exact h
      · exact absurd h hden
    intro x hx
    have := (list_sum_eq_zero_of_nonneg hnn).mp hsum ((x - listMean l) ^ 2)
      (List.mem_map.mpr ⟨x, hx, rfl⟩)
    have : x - listMean l = 0 := by
      exact pow_eq_zero_iff (n := 2) (by norm_num) |>.mp this
    linarith
  · intro hall
    have hsum : (l.map fun a => (a - listMean l) ^ 2).sum = 0 := by
      apply (list_sum_eq_zero_of_nonneg hnn).mpr
      intro y hy
      rcases List.mem_map.mp hy with ⟨a, ha, rfl⟩
      rw [hall a ha]
      ring
    rw [sampleVar, hsum, zero_div]

theorem stdZero_iff_sampleVar {l : List ℚ} (h2 : 2 ≤ l.length) :
    stdZero l = true ↔ sampleVar l = 0 := by
  obtain ⟨a, b, t, rfl⟩ : ∃ a b t, l = a :: b :: t := by
    match l, h2 with
    | a :: b :: t, _ => exact ⟨a, b, t, rfl⟩
  have hne : (a :: b :: t) ≠ [] := by simp
  constructor
  · intro hz
    have hz' : (b :: t).all (fun x => x == a) = true := by simpa [stdZero] using hz
    have hall : ∀ x ∈ a :: b :: t, x = a := by
      intro x hx
      rcases List.mem_cons.mp hx with rfl | hx'
      · rfl
      · have := List.all_eq_true.mp hz' x hx'
        simpa using this
    have hm : listMean (a :: b :: t) = a := listMean_of_const hne hall
    apply (sampleVar_eq_zero_iff h2).mpr
    intro x hx
    rw [hm]
    exact hall x hx
  · intro hv
    have hall := (sampleVar_eq_zero_iff h2).mp hv
    have ha : a = listMean (a :: b :: t) :=
      hall a (List.mem_cons_self a (b :: t))
    simp only [stdZero, List.all_eq_true]
    intro x hx
    have := hall x (List.mem_cons_of_mem a hx)
    simpa [← ha] using this

/-- C1: `scipy_analyze` returns `(None, None)` exactly when, after inner-join
alignment on the shared index and dropping samples where either value is
missing, fewer than 3 samples remain or either vector's sample standard
deviation is zero (zero variance); otherwise it returns the result of the
Pearson computation applied to the cleaned, aligned pair. -/
theorem scipy_analyze_spec (pearson : List ℚ → List ℚ → ℚ × ℚ) (v1 v2 : Series) :
    (scipy_analyze pearson v1 v2 = none ↔
      (alignCleaned v1 v2).length < 3 ∨
      sampleVar ((alignCleaned v1 v2).map Prod.fst) = 0 ∨
      sampleVar ((alignCleaned v1 v2).map Prod.snd) = 0) ∧
    (¬((alignCleaned v1 v2).length < 3 ∨
        sampleVar ((alignCleaned v1 v2).map Prod.fst) = 0 ∨
        sampleVar ((alignCleaned v1 v2).map Prod.snd) = 0) →
      scipy_analyze pearson v1 v2 =
        some (pearson ((alignCleaned v1 v2).map Prod.fst)
          ((alignCleaned v1 v2).map Prod.snd))) := by
  by_cases hlen : (alignCleaned v1 v2).length < 3
  · refine ⟨⟨fun _ => Or.inl hlen, fun _ => ?_⟩, fun hc => absurd (Or.inl hlen) hc⟩
    simp [scipy_analyze, hlen]
  · have h2 : 2 ≤ (alignCleaned v1 v2).length := by omega
    have h2x : 2 ≤ ((alignCleaned v1 v2).map Prod.fst).length := by simpa using h2
    have h2y : 2 ≤ ((alignCleaned v1 v2).map Prod.snd).length := by simpa using h2
    by_cases hsx : stdZero ((alignCleaned v1 v2).map Prod.fst) = true
    · have hvx := (stdZero_iff_sampleVar h2x).mp hsx
      refine ⟨⟨fun _ => Or.inr (Or.inl hvx), fun _ => ?_⟩,
        fun hc => absurd (Or.inr (Or.inl hvx)) hc⟩
      simp [scipy_analyze, hlen, hsx]
    · have hsx' : stdZero ((alignCleaned v1 v2).map Prod.fst) = false := by
        simpa using hsx
      by_cases hsy : stdZero ((alignCleaned v1 v2).map Prod.snd) = true
      · have hvy := (stdZero_iff_sampleVar h2y).mp hsy
        refine ⟨⟨fun _ => Or.inr (Or.inr hvy), fun _ => ?_⟩,
          fun hc => absurd (Or.inr (Or.inr hvy)) hc⟩
        simp [scipy_analyze, hlen, hsx', hsy]
      · have hsy' : stdZero ((alignCleaned v1 v2).map Prod.snd) = false := by
          simpa using hsy
        have hres : scipy_analyze pearson v1 v2 =
            some (pearson ((alignCleaned v1 v2).map Prod.fst)
              ((alignCleaned v1 v2).map Prod.snd)) := by
          simp [scipy_analyze, hlen, hsx', hsy']
        refine ⟨⟨fun hn => ?_, fun hd => ?_⟩, fun _ => hres⟩
        · rw [hres] at hn
          exact absurd hn (by simp)
        · rcases hd with h | h | h
          · exact absurd h hlen
          · exact absurd ((stdZero_iff_sampleVar h2x).mpr h) hsx
          · exact absurd ((stdZero_iff_sampleVar h2y).mpr h) hsy

/-- Witness for C1 at a concrete three-sample pair with nonzero variances. -/
theorem scipy_analyze_spec_witness :
    scipy_analyze pearsonStub sampleVec1 sampleVec2 =
      some (pearsonStub ((alignCleaned sampleVec1 sampleVec2).map Prod.fst)
        ((alignCleaned sampleVec1 sampleVec2).map Prod.snd)) :=
  (scipy_analyze_spec pearsonStub sampleVec1 sampleVec2).2 (by
    simp only [show alignCleaned sampleVec1 sampleVec2 =
      [((1 : ℚ), (1 : ℚ)), (2, 2), (3, 5)] from rfl]
    norm_num [sampleVar, listMean])

theorem findColSel_eq_none {gU : String} (cs : List Column)
    (h : ∀ c ∈ cs, isPotentialCol c = true →
      ∀ cell ∈ c.cells, strUpper cell.cellStr ≠ gU) :
    findColSel cs gU = none := by
  induction cs with
  | nil => rfl
  | cons c cs ih =>
    have hrest : findColSel cs gU = none :=
      ih fun c' hc' => h c' (List.mem_cons_of_mem c hc')
    by_cases hpot : isPotentialCol c = true
    · have hcm : colMatches c gU = [] := by
        unfold colMatches
        rw [List.map_eq_nil_iff, List.filter_eq_nil_iff]
        intro p hp
        have hmem : p.2 ∈ c.cells :=
          List.getElem?_mem (List.mem_enum_iff_getElem?.mp hp)
        simpa using h c (List.mem_cons_self c cs) hpot p.2 hmem
      simp [findColSel, hpot, hcm, hrest]
    · have hpot' : isPotentialCol c = false := by simpa using hpot
      simp [findColSel, hpot', hrest]

/-- C5: a gene identifier absent (case-insensitively) from the row index and
from every `SYMBOL`/`GENE` column yields the empty vector, and a malformed
non-DataFrame input also yields the empty vector instead of a propagated
exception (`fetch_gene_vector` is total, so it never raises). -/
theorem fetch_gene_vector_missing (d : DataFrame) (g : String)
    (hidx : ∀ s ∈ d.index, strUpper s ≠ strUpper g)
    (hcol : ∀ c ∈ d.cols, isPotentialCol c = true →
      ∀ cell ∈ c.cells, strUpper cell.cellStr ≠ strUpper g) :
    fetch_gene_vector (.df d) g = [] ∧
    ∀ v : BVal, v.isDF = false → fetch_gene_vector v g = [] := by
  constructor
  · have hIm : idxMatches d (strUpper g) = [] := by
      unfold idxMatches
      rw [List.map_eq_nil_iff, List.filter_eq_nil_iff]
      intro p hp
      have hmem : p.2 ∈ d.index :=
        List.getElem?_mem (List.mem_enum_iff_getElem?.mp hp)
      simpa using hidx p.2 hmem
    have hF : findColSel d.cols (strUpper g) = none := findColSel_eq_none d.cols hcol
    simp [fetch_gene_vector, fetchCore, hIm, hF]
  · intro v hv
    cases v with
    | df d' => simp [BVal.isDF] at hv
    | alignedDict ma mt => simp [fetch_gene_vector]
    | other => simp [fetch_gene_vector]

/-- Witness for C5: a gene that appears nowhere in `sampleDF`, and a
non-tabular input, both resolve to the empty vector. -/
theorem fetch_gene_vector_missing_witness :
    fetch_gene_vector (.df sampleDF) "Nope" = [] ∧
    fetch_gene_vector .other "Nope" = [] := by
  have h := fetch_gene_vector_missing sampleDF "Nope" (by decide) (by decide)
  exact ⟨h.1, h.2 .other rfl⟩

theorem flatMap_congr_mem {α β : Type} {l : List α} {f g : α → List β}
    (h : ∀ a ∈ l, f a = g a) : l.flatMap f = l.flatMap g := by
  induction l with
  | nil => rfl
  | cons a t ih =>
    rw [List.flatMap_cons, List.flatMap_cons, h a (List.mem_cons_self a t),
      ih fun x hx => h x (List.mem_cons_of_mem a hx)]

theorem filterMap_flatMap_const {α : Type} (l : List α) (v : List Nat)
    (f : Nat → Option ℚ) :
    (l.flatMap fun _ => v).filterMap f = l.flatMap fun _ => v.filterMap f := by
  induction l with
  | nil => rfl
  | cons a t ih =>
    rw [List.flatMap_cons, List.flatMap_cons, List.filterMap_append, ih]

theorem sum_flatMap_const {α : Type} (l : List α) (v : List ℚ) :
    (l.flatMap fun _ => v).sum = (l.length : ℚ) * v.sum := by
  induction l with
  | nil => simp
  | cons a t ih =>
    rw [List.flatMap_cons, List.sum_append, ih, List.length_cons]
    push_cast
    ring

theorem length_flatMap_const {α β : Type} (l : List α) (v : List β) :
    (l.flatMap fun _ => v).length = l.length * v.length := by
  induction l with
  | nil => simp
  | cons a t ih =>
    rw [List.flatMap_cons, List.length_append, ih, List.length_cons]
    ring

theorem meanAt_flatMap_const (c : Column) (ks pos : List Nat) (hks : ks ≠ []) :
    meanAt c (ks.flatMap fun _ => pos) = meanAt c pos := by
  simp only [meanAt]
  rw [filterMap_flatMap_const]
  by_cases hv : (pos.filterMap fun i => (c.cells.getD i ⟨"", none⟩).val) = []
  · have hbig : (ks.flatMap fun _ =>
        pos.filterMap fun i => (c.cells.getD i ⟨"", none⟩).val) = [] := by
      apply List.length_eq_zero.mp
      rw [length_flatMap_const, hv]
      simp
    rw [hbig, hv]
  · have hkl : ks.length ≠ 0 := by simpa [List.length_eq_zero] using hks
    have hvl : (pos.filterMap fun i => (c.cells.getD i ⟨"", none⟩).val).length ≠ 0 := by
      simpa [List.length_eq_zero] using hv
    have hbig : (ks.flatMap fun _ =>
        pos.filterMap fun i => (c.cells.getD i ⟨"", none⟩).val) ≠ [] := by
      intro h
      have hlen : ks.length *
          (pos.filterMap fun i => (c.cells.getD i ⟨"", none⟩).val).length = 0 := by
        rw [← length_flatMap_const, h]
        rfl
      rcases Nat.mul_eq_zero.mp hlen with h' | h'
      · exact hkl h'
      · exact hvl h'
    have h1 : (ks.flatMap fun _ =>
        pos.filterMap fun i => (c.cells.getD i ⟨"", none⟩).val).isEmpty = false := by
      simpa [List.isEmpty_iff] using hbig
    have h2 : (pos.filterMap fun i => (c.cells.getD i ⟨"", none⟩).val).isEmpty = false := by
      simpa [List.isEmpty_iff] using hv
    rw [h1, h2]
    simp only [Bool.false_eq_true, if_false]
    congr 1
    rw [sum_flatMap_const, length_flatMap_const]
    have hk0 : (ks.length : ℚ) ≠ 0 := by exact_mod_cast hkl
    push_cast
    rw [mul_div_mul_left _ _ hk0]

/-- C6 counterexample: on a matrix whose index mixes exactly-duplicated and
case-variant matching labels (`["ACTA2", "ACTA2", "acta2"]`, values
`0, 0, 3`), pandas `loc` expands the duplicate labels, so the program
returns `3 / 5` for the sample column rather than the arithmetic mean `1`
of the three matching rows the claim requires. -/
theorem fetch_gene_vector_duplicate_mean_counterexample :
    fetch_gene_vector (.df dupDF) "Acta2" = [("s1", some (3 / 5))] ∧
    meanAt dupCol (idxMatches dupDF (strUpper "Acta2")) = some 1 ∧
    ¬ (dupCol.name, meanAt dupCol (idxMatches dupDF (strUpper "Acta2"))) ∈
        fetch_gene_vector (.df dupDF) "Acta2" := by
  have hfetch : fetch_gene_vector (.df dupDF) "Acta2" = [("s1", some (3 / 5))] := by
    have h : fetch_gene_vector (.df dupDF) "Acta2" =
        [("s1", some ([(0 : ℚ), 0, 0, 0, 3].sum /
          ([(0 : ℚ), 0, 0, 0, 3].length : ℚ)))] := rfl
    rw [h]
    norm_num
  have hmean : meanAt dupCol (idxMatches dupDF (strUpper "Acta2")) = some 1 := by
    have h1 : idxMatches dupDF (strUpper "Acta2") = [0, 1, 2] := by decide
    have h2 : meanAt dupCol [0, 1, 2] =
        some ([(0 : ℚ), 0, 3].sum / ([(0 : ℚ), 0, 3].length : ℚ)) := rfl
    rw [h1, h2]
    norm_num
  refine ⟨hfetch, hmean, ?_⟩
  rw [hfetch, hmean]
  intro hmem
  simp [dupCol] at hmem
  norm_num at hmem

/-- C6 amended: when two or more index rows match the gene
case-insensitively, the resolved vector carries, for each numeric sample
column, the mean over the `loc`-expanded selection of the matching rows
(each matched exact label contributing all rows bearing it, so exact
duplicates are weighted by multiplicity); when every matching row carries
the same exact label, this expanded mean equals the arithmetic mean over
the matching rows. -/
theorem fetch_gene_vector_duplicate_mean (d : DataFrame) (g : String)
    (c : Column) (hdup : 2 ≤ (idxMatches d (strUpper g)).length)
    (hc : c ∈ d.cols) (hn : c.isNumeric = true) :
    (c.name, meanAt c (locPositions d (strUpper g))) ∈
      fetch_gene_vector (.df d) g ∧
    ∀ L : String, (∀ s ∈ d.index, strUpper s = strUpper g → s = L) →
      meanAt c (locPositions d (strUpper g)) =
        meanAt c (idxMatches d (strUpper g)) := by
  have hne : idxMatches d (strUpper g) ≠ [] := by
    intro h
    rw [h] at hdup
    simp at hdup
  constructor
  · have hEmpty : (idxMatches d (strUpper g)).isEmpty = false := by
      simpa [List.isEmpty_iff] using hne
    have hmemN : c ∈ numericCols d := List.mem_filter.mpr ⟨hc, hn⟩
    have hNne : (numericCols d).isEmpty = false := by
      simpa [List.isEmpty_iff] using List.ne_nil_of_mem hmemN
    simp only [fetch_gene_vector, fetchCore, hEmpty, Bool.false_eq_true, if_false,
      hNne]
    exact List.mem_map.mpr ⟨c, hmemN, rfl⟩
  · intro L hL
    have hupL : strUpper L = strUpper g := by
      obtain ⟨p, hp⟩ := List.exists_mem_of_ne_nil _ hne
      rcases List.mem_map.mp hp with ⟨e, he, rfl⟩
      have hmemf := List.mem_filter.mp he
      have hP : strUpper e.2 = strUpper g := by simpa using hmemf.2
      have hidx : e.2 ∈ d.index :=
        List.getElem?_mem (List.mem_enum_iff_getElem?.mp hmemf.1)
      rw [← hL e.2 hidx hP]
      exact hP
    have hAB : labelMatches d L = idxMatches d (strUpper g) := by
      unfold labelMatches idxMatches
      congr 1
      apply List.filter_congr
      intro e he
      have hidx : e.2 ∈ d.index :=
        List.getElem?_mem (List.mem_enum_iff_getElem?.mp he)
      by_cases hcase : e.2 = L
      · simp [hcase, hupL]
      · have hne2 : strUpper e.2 ≠ strUpper g := fun hcon => hcase (hL e.2 hidx hcon)
        simp [hcase, hne2]
    have hlbl : ∀ p ∈ idxMatches d (strUpper g), d.index.getD p "" = L := by
      intro p hp
      rcases List.mem_map.mp hp with ⟨e, he, rfl⟩
      have hmemf := List.mem_filter.mp he
      have hget : d.index[e.1]? = some e.2 := List.mem_enum_iff_getElem?.mp hmemf.1
      have hidx : e.2 ∈ d.index := List.getElem?_mem hget
      have hP : strUpper e.2 = strUpper g := by simpa using hmemf.2
      rw [List.getD_eq_getElem?_getD, hget]
      exact hL e.2 hidx hP
    have hloc : locPositions d (strUpper g) =
        (idxMatches d (strUpper g)).flatMap fun _ => idxMatches d (strUpper g) := by
      unfold locPositions
      refine flatMap_congr_mem fun p hp => ?_
      rw [hlbl p hp, hAB]
    rw [hloc]
    exact meanAt_flatMap_const c _ _ hne

/-- Witness for C6's amended theorem: on `uniDF` both matching rows carry
the exact label `ACTA2`, the `loc`-expanded mean agrees with the arithmetic
mean of the two matching rows, and its value is `(1 + 3) / 2 = 2`. -/
theorem fetch_gene_vector_duplicate_mean_witness :
    (uniCol.name, meanAt uniCol (locPositions uniDF (strUpper "Acta2"))) ∈
      fetch_gene_vector (.df uniDF) "Acta2" ∧
    meanAt uniCol (locPositions uniDF (strUpper "Acta2")) =
      meanAt uniCol (idxMatches uniDF (strUpper "Acta2")) ∧
    meanAt uniCol (idxMatches uniDF (strUpper "Acta2")) = some 2 := by
  have h := fetch_gene_vector_duplicate_mean uniDF "Acta2" uniCol
    (by decide) (by decide) (by decide)
  refine ⟨h.1, h.2 "ACTA2" (by decide), ?_⟩
  have h1 : idxMatches uniDF (strUpper "Acta2") = [0, 1] := by decide
  have h2 : meanAt uniCol [0, 1] =
      some ([(1 : ℚ), 3].sum / ([(1 : ℚ), 3].length : ℚ)) := rfl
  rw [h1, h2]
  norm_num

/-- C7: gene-name matching is case-insensitive — two gene names with the
same uppercasing resolve to identical vectors against any input. -/
theorem fetch_gene_vector_case_insensitive (v : BVal) (g1 g2 : String)
    (h : strUpper g1 = strUpper g2) :
    fetch_gene_vector v g1 = fetch_gene_vector v g2 := by
  cases v <;> simp [fetch_gene_vector, h]

/-- Witness for C7: `Acta2` and `ACTA2` resolve identically on `sampleDF`. -/
theorem fetch_gene_vector_case_insensitive_witness :
    fetch_gene_vector (.df sampleDF) "Acta2" =
      fetch_gene_vector (.df sampleDF) "ACTA2" :=
  fetch_gene_vector_case_insensitive (.df sampleDF) "Acta2" "ACTA2" (by decide)

theorem insertByR_perm (a : CorrRecord) (l : List CorrRecord) :
    (insertByR a l).Perm (a :: l) := by
  induction l with
  | nil => exact List.Perm.refl _
  | cons b bs ih =>
    show (if a.R ≤ b.R then a :: b :: bs else b :: insertByR a bs).Perm (a :: b :: bs)
    by_cases h : a.R ≤ b.R
    · rw [if_pos h]
    · rw [if_neg h]
      exact (ih.cons b).trans (List.Perm.swap a b bs)

theorem sortByR_perm (l : List CorrRecord) : (sortByR l).Perm l := by
  induction l with
  | nil => exact List.Perm.refl _
  | cons a t ih => exact (insertByR_perm a (sortByR t)).trans (ih.cons a)

theorem insertByR_sorted {a : CorrRecord} {l : List CorrRecord}
    (h : l.Pairwise fun x y => x.R ≤ y.R) :
    (insertByR a l).Pairwise fun x y => x.R ≤ y.R := by
  induction l with
  | nil => simp [insertByR]
  | cons b bs ih =>
    rcases List.pairwise_cons.mp h with ⟨hb, hbs⟩
    show (if a.R ≤ b.R then a :: b :: bs else b :: insertByR a bs).Pairwise _
    by_cases hab : a.R ≤ b.R
    · rw [if_pos hab]
      refine List.pairwise_cons.mpr ⟨?_, h⟩
      intro y hy
      rcases List.mem_cons.mp hy with rfl | hy'
      · exact hab
      · exact le_trans hab (hb y hy')
    · rw [if_neg hab]
      refine List.pairwise_cons.mpr ⟨?_, ih hbs⟩
      intro y hy
      have hy2 : y ∈ a :: bs := (insertByR_perm a bs).mem_iff.mp hy
      rcases List.mem_cons.mp hy2 with rfl | hy3
      · exact le_of_not_le hab
      · exact hb y hy3

theorem sortByR_sorted (l : List CorrRecord) :
    (sortByR l).Pairwise fun x y => x.R ≤ y.R := by
  induction l with
  | nil => simp [sortByR]
  | cons a t ih => exact insertByR_sorted ih

/-- C4: the significant-subset view holds exactly the records with
`P_value < 0.05` (a permutation of the filtered table, hence nothing with
`P_value ≥ 0.05`), sorted ascending by the coefficient `R`; `significant`
is a pure function of the table, so computing the view leaves the
underlying result table unchanged. -/
theorem significant_spec (t : List CorrRecord) :
    (significant t).Perm (t.filter fun rec => rec.P_value < 0.05) ∧
    ((significant t).Pairwise fun x y => x.R ≤ y.R) ∧
    ∀ rec ∈ significant t, rec.P_value < 0.05 := by
  refine ⟨sortByR_perm _, sortByR_sorted _, ?_⟩
  intro rec hrec
  have hmem := (sortByR_perm _).mem_iff.mp hrec
  exact of_decide_eq_true (List.mem_filter.mp hmem).2

/-- C2 counterexample: with `max_length = 10` the typed index `11` exceeds
`max_length` yet is accepted rather than rejected, because the guard on
line 61 of `parse_interpreter.py` only rejects indices exceeding
`max_length + 1`. -/
theorem parse_interpreter_counterexample :
    parse_interpreter "11" 10 none = .ok [11] ∧ 10 < 11 :=
  ⟨by decide, by decide⟩

/-- C2 amended: the parser rejects empty input, parses `"1:3,5"` with
`max_length = 10` to the sorted duplicate-free `[1, 2, 3, 5]`, and for a
positive `max_length` any accepted list only holds indices up to
`max_length + 1` (one more than the claim's bound). -/
theorem parse_interpreter_amended (input : String) (m : Nat) (w : Option String)
    (l : List Nat) (hm : m ≠ 0) (hok : parse_interpreter input m w = .ok l) :
    (∀ n ∈ l, n ≤ m + 1) ∧
    parse_interpreter "" m w = .invalid ∧
    parse_interpreter "1:3,5" 10 none = .ok [1, 2, 3, 5] := by
  refine ⟨?_, rfl, by decide⟩
  intro n hn
  unfold parse_interpreter at hok
  split at hok
  · cases hok
  · split at hok
    · cases hok
    · split at hok
      · cases hok
      · cases hok
      · rename_i ls hvals
        simp only [] at hok
        split at hok
        · cases hok
        · rename_i hguard
          injection hok with hok'
          subst hok'
          have hmb : (m != 0) = true := by simpa using hm
          by_contra hgt
          push_neg at hgt
          exact hguard (by
            rw [Bool.and_eq_true]
            exact ⟨hmb, List.any_eq_true.mpr ⟨n, hn, by simpa using hgt⟩⟩)

/-- Witness for C2's amended theorem at the accepted input `"2:4"` with
`max_length = 3`. -/
theorem parse_interpreter_amended_witness :
    (∀ n ∈ [2, 3, 4], n ≤ 3 + 1) ∧
    parse_interpreter "" 3 none = .invalid ∧
    parse_interpreter "1:3,5" 10 none = .ok [1, 2, 3, 5] :=
  parse_interpreter_amended "2:4" 3 none [2, 3, 4] (by decide) (by decide)

/-- C3: a bundle containing only the reserved `"meta"` entry produces zero
correlation records, and `data_analyzer` raises to the caller (the empty
result reaches the bare `raise`, a `RuntimeError`) rather than returning an
empty table. -/
theorem meta_only_bundle_fails (pearson : List ℚ → List ℚ → ℚ × ℚ)
    (tarGene : String) (m : BVal) :
    calcRecords pearson tarGene [("meta", m)] = [] ∧
    data_analyzer pearson tarGene [("meta", m)] =
      .error (.runtimeError "No active exception to re-raise") := by
  have h : calcRecords pearson tarGene [("meta", m)] = [] := by
    simp [calcRecords]
  exact ⟨h, by simp [data_analyzer, calculater, h]⟩

theorem entryRecords_nonDF {pearson : List ℚ → List ℚ → ℚ × ℚ}
    {tarGene n : String} {v : BVal} (hv : v.isDF = false) :
    entryRecords pearson tarGene n v = [] := by
  cases v with
  | df d => simp [BVal.isDF] at hv
  | alignedDict ma mt => rfl
  | other => rfl

theorem calcRecords_strict_nil (pearson : List ℚ → List ℚ → ℚ × ℚ)
    (tarGene : String) :
    ∀ bundle : List (String × BVal),
      (∀ p ∈ bundle, p.1 ≠ "meta" → ∃ ma mt, p.2 = BVal.alignedDict ma mt) →
      calcRecords pearson tarGene bundle = [] := by
  intro bundle
  induction bundle with
  | nil => intro _; rfl
  | cons p t ih =>
    intro h
    have ht := ih fun q hq => h q (List.mem_cons_of_mem p hq)
    have hcalc : calcRecords pearson tarGene (p :: t) =
        (if p.1 == "meta" then [] else entryRecords pearson tarGene p.1 p.2) ++
          calcRecords pearson tarGene t := rfl
    rw [hcalc, ht]
    by_cases hm : p.1 = "meta"
    · simp [hm]
    · rcases h p (List.mem_cons_self p t) hm with ⟨ma, mt, hp⟩
      have he : entryRecords pearson tarGene p.1 p.2 = [] := by
        rw [hp]
        exact entryRecords_nonDF rfl
      simp [hm, he]

/-- C10: a strict-mode bundle entry is the nested
`{"matrix_aligned", "meta_aligned"}` dict, a non-DataFrame input, so
`fetch_gene_vector` returns the empty vector on it for every gene name;
consequently a bundle whose non-meta entries are all strict-mode entries
produces zero records and `data_analyzer` raises. -/
theorem strict_mode_bundle_fails (pearson : List ℚ → List ℚ → ℚ × ℚ)
    (tarGene : String) (bundle : List (String × BVal))
    (hstrict : ∀ p ∈ bundle, p.1 ≠ "meta" →
      ∃ ma mt, p.2 = BVal.alignedDict ma mt) :
    (∀ (ma mt : DataFrame) (g : String),
      fetch_gene_vector (.alignedDict ma mt) g = []) ∧
    calcRecords pearson tarGene bundle = [] ∧
    data_analyzer pearson tarGene bundle =
      .error (.runtimeError "No active exception to re-raise") := by
  have hrec := calcRecords_strict_nil pearson tarGene bundle hstrict
  exact ⟨fun ma mt g => rfl, hrec, by simp [data_analyzer, calculater, hrec]⟩

/-- Witness for C10 at a concrete bundle holding `"meta"` and one
strict-mode aligned-pair entry. -/
theorem strict_mode_bundle_fails_witness :
    calcRecords pearsonStub "Polb" strictBundle = [] ∧
    data_analyzer pearsonStub "Polb" strictBundle =
      .error (.runtimeError "No active exception to re-raise") := by
  have h := strict_mode_bundle_fails pearsonStub "Polb" strictBundle (by
    intro p hp hmeta
    rcases List.mem_cons.mp hp with rfl | hp'
    · exact absurd rfl hmeta
    · rcases List.mem_cons.mp hp' with rfl | hnil
      · exact ⟨sampleDF, sampleDF, rfl⟩
      · cases hnil)
  exact ⟨h.2.1, h.2.2⟩

/-- C9 counterexample: with the cache file missing and no in-memory bundle,
the surfaced failure is the `AttributeError` raised by calling `.items()`
on the `None` bundle — not the underlying missing-cache
`FileNotFoundError`, which `read_pkl` catches and only logs. -/
theorem file_analyzer_missing_cache_counterexample :
    file_data_analyzer pearsonStub "Polb" none =
      .error (.attributeError "nonetype object has no attribute items") ∧
    ∀ msg, file_data_analyzer pearsonStub "Polb" none ≠
      .error (.fileNotFoundError msg) := by
  refine ⟨rfl, ?_⟩
  intro msg h
  rw [show file_data_analyzer pearsonStub "Polb" none =
    .error (.attributeError "nonetype object has no attribute items") from rfl] at h
  simp at h

/-- C9 amended: when neither the cache file nor an in-memory bundle exists,
the analysis does fail loudly — an exception reaches the caller — but the
error surfaced is the unrelated `NoneType` `AttributeError` from the
calculation step, not the underlying missing-cache error. -/
theorem file_analyzer_missing_cache_fails (pearson : List ℚ → List ℚ → ℚ × ℚ)
    (tarGene : String) :
    file_data_analyzer pearson tarGene none =
      .error (.attributeError "nonetype object has no attribute items") := rfl

/-- C8: when a file with the same base name already exists in the dataset
directory, `download_geo_data` returns that local path with the state
unchanged — no network request is recorded and no file is modified. -/
theorem download_geo_data_skip (dataDir : String) (net : String → Option String)
    (url : String) (s : FileSys)
    (h : (fsLookup s.files (pathJoin dataDir (basename url))).isSome = true) :
    download_geo_data dataDir net url s =
      (some (pathJoin dataDir (basename url)), s) := by
  simp [download_geo_data, h]

/-- Witness for C8 at a concrete state already holding the file. -/
theorem download_geo_data_skip_witness :
    download_geo_data "data/GSE1" netStub "ftp://host/sub/m.txt.gz"
      ⟨[("data/GSE1/m.txt.gz", "cached")], []⟩ =
      (some (pathJoin "data/GSE1" (basename "ftp://host/sub/m.txt.gz")),
        ⟨[("data/GSE1/m.txt.gz", "cached")], []⟩) :=
  download_geo_data_skip "data/GSE1" netStub "ftp://host/sub/m.txt.gz" _ (by decide)

end SGA
